import Mathlib

/-!
Shallow embedding of the secure tar.gz extractor of `krci-cache`
(`uploader/untar.go`) and proofs about its specification.

Modelling conventions:
* An absolute, cleaned filesystem path (the output of Go's `filepath.Clean`
  on a rooted path) is represented by its list of segments (`List String`);
  the root `/` is `[]`.
* The filesystem is an association list from paths to objects
  (`FsObj`), standing for the relevant part of the real disk state.
* The decoded archive (the output of the gzip+tar stream decoder) is a
  `List Entry`: each entry is its tar header plus the sequence of chunks
  that `io.Copy` hands to the tracking writer for a regular file.
  Decode errors of the stream itself are outside this model.
* Errors are an inductive mirroring the distinct `fmt.Errorf` sites of the
  source; the `Except` error also carries the filesystem state at failure,
  since the Go code mutates the real disk before returning an error.
* Go's `io.Copy` streams chunks into the opened file; the model accumulates
  the chunk bytes and commits them at the end, removing the file on error
  exactly as `handleRegularFile` does, which yields the same observable
  final state.
-/

set_option autoImplicit false

namespace KrciCache

/-- Model of the constant `MaxFileSize` (2 GiB), `untar.go` line 17. -/
def MaxFileSize : Int := 2 * 1024 * 1024 * 1024

/-- Model of the constant `MaxTotalSize` (8 GiB), `untar.go` line 19. -/
def MaxTotalSize : Int := 8 * 1024 * 1024 * 1024

/-- Split a string at `/` characters (the behaviour of `s.splitOn "/"`,
restated by structural recursion over the character list so that proofs
can evaluate it). -/
def splitSegsAux : List Char → List Char → List String
  | [], acc => [String.mk acc.reverse]
  | c :: cs, acc =>
    if c = '/' then String.mk acc.reverse :: splitSegsAux cs []
    else splitSegsAux cs (c :: acc)

/-- Segments of an entry name, as `filepath.Clean` sees them. -/
def splitSegs (s : String) : List String :=
  splitSegsAux s.data []

/-- Model of one step of Go's `filepath.Clean` segment processing for a
rooted path: empty and `.` segments vanish, `..` pops the last segment
(at the root it vanishes), anything else is appended. -/
def cleanPush (acc : List String) (seg : String) : List String :=
  if seg = "" ∨ seg = "." then acc
  else if seg = ".." then acc.dropLast
  else acc ++ [seg]

/-- Model of `filepath.Join(absDst, name)` (= `Clean(absDst + "/" + name)`)
where `absDst` is already an absolute clean path given as segments:
the segments of `name` are folded into `absDst` by the clean step. -/
def goJoin (absDst : List String) (name : String) : List String :=
  (splitSegs name).foldl cleanPush absDst

/-- Render a segment list as the absolute path string Go works with
(`[] ↦ "/"`, `["a","b"] ↦ "/a/b"`). -/
def pathStr : List String → String
  | [] => "/"
  | s :: rest => rest.foldl (fun acc seg => acc ++ "/" ++ seg) ("/" ++ s)

/-- Model of Go's `strings.HasPrefix(s, pre)`, restated over the
character lists of the two strings. -/
def hasPrefixStr (s pre : String) : Bool :=
  pre.data.isPrefixOf s.data

/-- Model of `isPathSafe(target, dst)`, `untar.go` lines 127-135:
`strings.HasPrefix(absTarget, dst+"/") || absTarget == dst`.
Here `target` is the output of `goJoin`, which is already absolute and
clean, so `filepath.Abs` of it is the identity. -/
def isPathSafe (target dst : List String) : Bool :=
  hasPrefixStr (pathStr target) (pathStr dst ++ "/") || pathStr target == pathStr dst

/-- Tar entry type flag (`header.Typeflag`); `other` keeps the raw code of
any flag that is not a directory, regular file, symlink or hard link. -/
inductive TypeFlag where
  | dir
  | reg
  | symlink
  | link
  | other (code : Nat)
deriving DecidableEq, Repr

/-- The fields of `tar.Header` that the extractor reads. -/
structure Header where
  name : String
  typeflag : TypeFlag
  size : Int
  mode : Nat
deriving DecidableEq, Repr

/-- One decoded archive entry: its header and, for regular files, the
chunk sequence that `io.Copy` writes through the tracking writer. -/
structure Entry where
  header : Header
  chunks : List (List Nat)
deriving DecidableEq, Repr

/-- A filesystem object: a directory or a regular file with its content
bytes, each carrying its permission bits. -/
inductive FsObj where
  | dir (mode : Nat)
  | file (content : List Nat) (mode : Nat)
deriving DecidableEq, Repr

/-- The filesystem: an association list from absolute paths (segment
lists) to objects; the first binding for a path is the current one. -/
abbrev FS := List (List String × FsObj)

/-- Look up the object at a path (`os.Stat`). -/
def fsGet (fs : FS) (p : List String) : Option FsObj :=
  (fs.find? (fun kv => kv.1 == p)).map (fun kv => kv.2)

/-- Store an object at a path, replacing any previous binding. -/
def fsSet (fs : FS) (p : List String) (o : FsObj) : FS :=
  (p, o) :: fs.filter (fun kv => !(kv.1 == p))

/-- Delete the binding at a path (`os.Remove`). -/
def fsRemove (fs : FS) (p : List String) : FS :=
  fs.filter (fun kv => !(kv.1 == p))

/-- Extraction errors, one constructor per distinct failure site of
`untar.go`; the two `Failed` constructors model the `%w` wrapping done in
`processEntry`. -/
inductive ExtractErr where
  | sizeLimit (name : String)
  | unsafePath (name : String)
  | linkEntry (name : String)
  | notADirectory (path : List String)
  | totalSizeLimit
  | sizeAnomaly (name : String)
  | isADirectory (path : List String)
  | dirEntryFailed (name : String) (e : ExtractErr)
  | fileEntryFailed (name : String) (e : ExtractErr)
deriving DecidableEq, Repr

instance instDecidableEqExcept {ε α : Type} [DecidableEq ε] [DecidableEq α] :
    DecidableEq (Except ε α) := fun a b =>
  match a, b with
  | .ok x, .ok y =>
    if h : x = y then .isTrue (h ▸ rfl)
    else .isFalse fun he => h (by cases he; rfl)
  | .error x, .error y =>
    if h : x = y then .isTrue (h ▸ rfl)
    else .isFalse fun he => h (by cases he; rfl)
  | .ok _, .error _ => .isFalse fun he => Except.noConfusion he
  | .error _, .ok _ => .isFalse fun he => Except.noConfusion he

/-- Recursion worker for `mkdirAll`; the fuel argument only bounds the
recursion depth. -/
def mkdirAllAux : Nat → FS → List String → Nat → Except ExtractErr FS
  | _, fs, [], _ => .ok fs
  | 0, fs, _, _ => .ok fs
  | fuel + 1, fs, p, mode =>
    match fsGet fs p with
    | some (.dir _) => .ok fs
    | some (.file _ _) => .error (.notADirectory p)
    | none =>
      match mkdirAllAux fuel fs p.dropLast mode with
      | .error e => .error e
      | .ok fs1 => .ok (fsSet fs1 p (.dir mode))

/-- Model of Go's `os.MkdirAll(p, mode)`: an existing directory is a
no-op, an existing file is an error, otherwise the parent chain is
ensured recursively and then the directory is created.  Conflicts are
detected by `Stat` during the descent, before any creation, so an error
leaves the filesystem unchanged — exactly as in Go.  The recursion is on
the parent path, fuelled by the segment count (the fuel never runs out:
`mkdirAllAux` consumes one unit per dropped segment, and the `0` branch
for a nonempty path is unreachable from `mkdirAll`). -/
def mkdirAll (fs : FS) (p : List String) (mode : Nat) : Except ExtractErr FS :=
  mkdirAllAux p.length fs p mode

/-- Model of `validateTotalSize`, `untar.go` lines 92-98. -/
def validateTotalSize (totalWritten additionalBytes : Int) : Except ExtractErr Unit :=
  if totalWritten + additionalBytes > MaxTotalSize then .error .totalSizeLimit
  else .ok ()

/-- Model of `io.Copy(trackingWriter, tr)`, `untar.go` lines 182-194 and
205-222: each chunk is checked by `validateTotalSize(currentTotal +
written, len(chunk))` before being written; on acceptance the chunk's
bytes are appended to the file content and `written` grows by its
length.  Returns the final content and the per-file byte count. -/
def copyChunks : List (List Nat) → List Nat → Int → Int → Except ExtractErr (List Nat × Int)
  | [], content, _, written => .ok (content, written)
  | p :: rest, content, currentTotal, written =>
    match validateTotalSize (currentTotal + written) ((p.length : Int)) with
    | .error e => .error e
    | .ok _ => copyChunks rest (content ++ p) currentTotal (written + (p.length : Int))

/-- Permission bits for a regular file: `os.FileMode(header.Mode) &
os.ModePerm`, with `0644` substituted when the masked bits are zero
(`untar.go` lines 166-169). -/
def fileMode (headerMode : Nat) : Nat :=
  let mode := headerMode &&& 0o777
  if mode = 0 then 0o644 else mode

/-- Permission bits for a directory: the masked header bits with `0755`
substituted when they are zero (`untar.go` lines 149-152). -/
def dirMode (headerMode : Nat) : Nat :=
  let mode := headerMode &&& 0o777
  if mode = 0 then 0o755 else mode

/-- Model of `os.OpenFile(p, O_CREATE|O_TRUNC|O_WRONLY, mode)`: fails on
an existing directory, truncates an existing file (keeping its mode),
creates a fresh empty file otherwise.  Returns the filesystem and the
mode the open handle carries. -/
def openFileCreateTrunc (fs : FS) (p : List String) (mode : Nat) :
    Except ExtractErr (FS × Nat) :=
  match fsGet fs p with
  | some (.dir _) => .error (.isADirectory p)
  | some (.file _ m) => .ok (fsSet fs p (.file [] m), m)
  | none => .ok (fsSet fs p (.file [] mode), mode)

/-- Model of `handleDirectory`, `untar.go` lines 137-155. -/
def handleDirectory (fs : FS) (target : List String) (hdr : Header) :
    Except ExtractErr FS :=
  match fsGet fs target with
  | some (.dir _) => .ok fs
  | some (.file _ _) => .error (.notADirectory target)
  | none => mkdirAll fs target (dirMode hdr.mode)

/-- Model of `handleRegularFile`, `untar.go` lines 157-203: ensure the
parent directory, open/create/truncate the target, stream the chunks
through the tracking writer, remove the partial file on a copy error,
and apply the `written > header.Size*2` post-check (also removing the
file when it fires).  The error carries the filesystem at failure. -/
def handleRegularFile (fs : FS) (target : List String) (hdr : Header)
    (chunks : List (List Nat)) (currentTotal : Int) :
    Except (ExtractErr × FS) (Int × FS) :=
  match mkdirAll fs target.dropLast 0o755 with
  | .error e => .error (e, fs)
  | .ok fs1 =>
    match openFileCreateTrunc fs1 target (fileMode hdr.mode) with
    | .error e => .error (e, fs1)
    | .ok (fs2, m) =>
      match copyChunks chunks [] currentTotal 0 with
      | .error e => .error (e, fsRemove fs2 target)
      | .ok (content, written) =>
        if written > hdr.size * 2 then
          .error (.sizeAnomaly hdr.name, fsRemove fs2 target)
        else
          .ok (written, fsSet fs2 target (.file content m))

/-- Model of `processEntry`, `untar.go` lines 100-124: dispatch on the
type flag; directory and file errors are wrapped as in the `%w`
messages; symlinks and hard links are rejected; other types are skipped
with only a diagnostic print. -/
def processEntry (fs : FS) (hdr : Header) (target : List String)
    (chunks : List (List Nat)) (totalWritten : Int) :
    Except (ExtractErr × FS) (Int × FS) :=
  match hdr.typeflag with
  | .dir =>
    match handleDirectory fs target hdr with
    | .error e => .error (.dirEntryFailed hdr.name e, fs)
    | .ok fs2 => .ok (totalWritten, fs2)
  | .reg =>
    match handleRegularFile fs target hdr chunks totalWritten with
    | .error ef => .error (.fileEntryFailed hdr.name ef.1, ef.2)
    | .ok (written, fs2) => .ok (totalWritten + written, fs2)
  | .symlink => .error (.linkEntry hdr.name, fs)
  | .link => .error (.linkEntry hdr.name, fs)
  | .other _ => .ok (totalWritten, fs)

/-- Model of `extractArchive`, `untar.go` lines 61-89, over the decoded
entry list: per entry, the declared-size pre-check, then the path-safety
check on the joined target, then `processEntry`; the first error aborts
the loop.  (The `header == nil` padding skip of the Go loop has no
counterpart: decoded entries are real records.) -/
def extractArchive (fs : FS) (absDst : List String) (totalWritten : Int) :
    List Entry → Except (ExtractErr × FS) FS
  | [] => .ok fs
  | e :: rest =>
    if e.header.size > MaxFileSize then
      .error (.sizeLimit e.header.name, fs)
    else
      let target := goJoin absDst e.header.name
      if isPathSafe target absDst then
        match processEntry fs e.header target e.chunks totalWritten with
        | .error ef => .error ef
        | .ok (tw, fs2) => extractArchive fs2 absDst tw rest
      else
        .error (.unsafePath e.header.name, fs)

/-- Model of `UntarGz`, `untar.go` lines 22-37: `absDst` stands for
`filepath.Abs(dst)` and the entry list for the decoded gzip+tar stream;
extraction starts with `totalWritten = 0`. -/
def UntarGz (fs : FS) (absDst : List String) (entries : List Entry) :
    Except (ExtractErr × FS) FS :=
  extractArchive fs absDst 0 entries

/-- Total byte length of a chunk sequence (as `int64`). -/
def chunkLens (chunks : List (List Nat)) : Int :=
  (chunks.map fun p => (p.length : Int)).sum

/-- Total content bytes of the regular-file entries of an archive. -/
def regTotal (entries : List Entry) : Int :=
  (entries.map fun e =>
    if e.header.typeflag = TypeFlag.reg then chunkLens e.chunks else 0).sum

/-- Target path of an entry under a destination root. -/
def entryTarget (absDst : List String) (e : Entry) : List String :=
  goJoin absDst e.header.name

/-- Non-conflict condition between two archive entries: the target of a
regular-file entry must not be a path prefix of (or equal to) the other
entry's target, in either order. -/
def EntrySep (absDst : List String) (e1 e2 : Entry) : Prop :=
  (e1.header.typeflag = TypeFlag.reg → ¬ (entryTarget absDst e1 <+: entryTarget absDst e2)) ∧
  (e2.header.typeflag = TypeFlag.reg → ¬ (entryTarget absDst e2 <+: entryTarget absDst e1))

instance instDecidableEntrySep (absDst : List String) (e1 e2 : Entry) :
    Decidable (EntrySep absDst e1 e2) := by
  unfold EntrySep
  infer_instance

/-! ## Basic filesystem lemmas -/

theorem find?_filter_ne (fs : FS) (p q : List String) (h : ¬ q = p) :
    ((fs.filter fun kv => !(kv.1 == p)).find? fun kv => kv.1 == q)
      = fs.find? fun kv => kv.1 == q := by
  induction fs with
  | nil => rfl
  | cons kv fs ih =>
    by_cases hkp : kv.1 = p
    · have h1 : (kv.1 == p) = true := beq_iff_eq.mpr hkp
      have h2 : (kv.1 == q) = false := by
        refine beq_eq_false_iff_ne.mpr ?_
        intro he
        exact h (by rw [← he, hkp])
      simp [List.filter_cons, h1, List.find?_cons, h2, ih]
    · have h1 : (kv.1 == p) = false := beq_eq_false_iff_ne.mpr hkp
      by_cases hkq : kv.1 = q
      · have h2 : (kv.1 == q) = true := beq_iff_eq.mpr hkq
        simp [List.filter_cons, h1, List.find?_cons, h2]
      · have h2 : (kv.1 == q) = false := beq_eq_false_iff_ne.mpr hkq
        simp [List.filter_cons, h1, List.find?_cons, h2, ih]

theorem fsGet_fsSet (fs : FS) (p : List String) (o : FsObj) (q : List String) :
    fsGet (fsSet fs p o) q = if q = p then some o else fsGet fs q := by
  by_cases hqp : q = p
  · subst hqp
    simp [fsGet, fsSet, List.find?_cons, beq_self_eq_true]
  · have h2 : (p == q) = false := beq_eq_false_iff_ne.mpr fun he => hqp he.symm
    simp [fsGet, fsSet, List.find?_cons, h2, hqp, find?_filter_ne fs p q hqp]

theorem fsGet_fsRemove (fs : FS) (p : List String) (q : List String) :
    fsGet (fsRemove fs p) q = if q = p then none else fsGet fs q := by
  by_cases hqp : q = p
  · subst hqp
    simp only [fsGet, fsRemove, if_pos rfl]
    induction fs with
    | nil => rfl
    | cons kv fs ih =>
      by_cases hkq : kv.1 = q
      · have h1 : (kv.1 == q) = true := beq_iff_eq.mpr hkq
        simp [List.filter_cons, h1, ih]
      · have h1 : (kv.1 == q) = false := beq_eq_false_iff_ne.mpr hkq
        simp [List.filter_cons, h1, List.find?_cons, ih]
  · simp only [fsGet, fsRemove, if_neg hqp]
    rw [find?_filter_ne fs p q hqp]

/-! ## Lemmas about `mkdirAll` -/

theorem mkdirAll_nil (fs : FS) (mode : Nat) : mkdirAll fs [] mode = .ok fs := rfl

theorem mkdirAll_eq (fs : FS) (p : List String) (mode : Nat) (hp : p ≠ []) :
    mkdirAll fs p mode =
      match fsGet fs p with
      | some (.dir _) => .ok fs
      | some (.file _ _) => .error (.notADirectory p)
      | none =>
        match mkdirAll fs p.dropLast mode with
        | .error e => .error e
        | .ok fs1 => .ok (fsSet fs1 p (.dir mode)) := by
  obtain ⟨a, t, rfl⟩ := List.exists_cons_of_ne_nil hp
  show mkdirAllAux (t.length + 1) fs (a :: t) mode = _
  have hlen : (a :: t).dropLast.length = t.length := by
    simp [List.length_dropLast]
  rw [mkdirAllAux]
  · unfold mkdirAll
    rw [hlen]
  · simp

theorem prefix_dropLast_false (p : List String) (hp : p ≠ []) :
    ¬ (p <+: p.dropLast) := by
  intro h
  have h1 := h.length_le
  have h2 : p.dropLast.length = p.length - 1 := by simp [List.length_dropLast]
  have h3 := List.length_pos.mpr hp
  omega

theorem mkdirAll_ok_aux (fs : FS) (mode : Nat) (n : Nat) :
    ∀ p : List String, p.length = n →
    (∀ q, q <+: p → ∀ c m, fsGet fs q ≠ some (.file c m)) →
    ∃ fs2, mkdirAll fs p mode = .ok fs2
      ∧ (∀ q, fsGet fs2 q = fsGet fs q
          ∨ (q <+: p ∧ fsGet fs q = none ∧ fsGet fs2 q = some (.dir mode)))
      ∧ (p ≠ [] → ∃ m2, fsGet fs2 p = some (.dir m2)) := by
  induction n with
  | zero =>
    intro p hn _
    have hp : p = [] := List.length_eq_zero.mp hn
    subst hp
    exact ⟨fs, mkdirAll_nil fs mode, fun q => Or.inl rfl, fun h => absurd rfl h⟩
  | succ n ih =>
    intro p hn hnofile
    have hp : p ≠ [] := by
      intro h; subst h; simp at hn
    rw [mkdirAll_eq fs p mode hp]
    cases hget : fsGet fs p with
    | some o =>
      cases o with
      | dir m =>
        exact ⟨fs, rfl, fun q => Or.inl rfl, fun _ => ⟨m, hget⟩⟩
      | file c m =>
        exact absurd hget (hnofile p List.prefix_rfl c m)
    | none =>
      have hlen : p.dropLast.length = n := by
        simp [List.length_dropLast, hn]
      have hnofile2 : ∀ q, q <+: p.dropLast → ∀ c m, fsGet fs q ≠ some (.file c m) :=
        fun q hq => hnofile q (hq.trans (List.dropLast_prefix p))
      obtain ⟨fs1, heq1, hdesc1, _⟩ := ih p.dropLast hlen hnofile2
      refine ⟨fsSet fs1 p (.dir mode), by rw [heq1], ?_, ?_⟩
      · intro q
        by_cases hqp : q = p
        · subst hqp
          exact Or.inr ⟨List.prefix_rfl, hget, by rw [fsGet_fsSet, if_pos rfl]⟩
        · rw [fsGet_fsSet, if_neg hqp]
          rcases hdesc1 q with h | ⟨h1, h2, h3⟩
          · exact Or.inl h
          · exact Or.inr ⟨h1.trans (List.dropLast_prefix p), h2, h3⟩
      · intro _
        exact ⟨mode, by rw [fsGet_fsSet, if_pos rfl]⟩

theorem mkdirAll_ok (fs : FS) (p : List String) (mode : Nat)
    (hnofile : ∀ q, q <+: p → ∀ c m, fsGet fs q ≠ some (.file c m)) :
    ∃ fs2, mkdirAll fs p mode = .ok fs2
      ∧ (∀ q, fsGet fs2 q = fsGet fs q
          ∨ (q <+: p ∧ fsGet fs q = none ∧ fsGet fs2 q = some (.dir mode)))
      ∧ (p ≠ [] → ∃ m2, fsGet fs2 p = some (.dir m2)) :=
  mkdirAll_ok_aux fs mode p.length p rfl hnofile

theorem mkdirAll_preserves_aux (fs : FS) (mode : Nat) (n : Nat) :
    ∀ (p : List String) (fs2 : FS), p.length = n →
    mkdirAll fs p mode = .ok fs2 →
    ∀ q o, fsGet fs q = some o → fsGet fs2 q = some o := by
  induction n with
  | zero =>
    intro p fs2 hn h
    have hp : p = [] := List.length_eq_zero.mp hn
    subst hp
    rw [mkdirAll_nil] at h
    cases h
    exact fun q o hq => hq
  | succ n ih =>
    intro p fs2 hn h
    have hp : p ≠ [] := by
      intro hh; subst hh; simp at hn
    rw [mkdirAll_eq fs p mode hp] at h
    cases hget : fsGet fs p with
    | some o =>
      cases o with
      | dir m =>
        rw [hget] at h
        cases h
        exact fun q o hq => hq
      | file c m => rw [hget] at h; cases h
    | none =>
      rw [hget] at h
      cases hrec : mkdirAll fs p.dropLast mode with
      | error e => rw [hrec] at h; cases h
      | ok fs1 =>
        rw [hrec] at h
        cases h
        intro q o hq
        have hlen : p.dropLast.length = n := by
          simp [List.length_dropLast, hn]
        have h1 := ih p.dropLast fs1 hlen hrec q o hq
        rw [fsGet_fsSet]
        by_cases hqp : q = p
        · subst hqp; rw [hget] at hq; cases hq
        · rw [if_neg hqp]; exact h1

theorem mkdirAll_preserves (fs fs2 : FS) (p : List String) (mode : Nat)
    (h : mkdirAll fs p mode = .ok fs2) :
    ∀ q o, fsGet fs q = some o → fsGet fs2 q = some o :=
  mkdirAll_preserves_aux fs mode p.length p fs2 rfl h

/-! ## Lemmas about the tracking writer -/

theorem chunkLens_nil : chunkLens [] = 0 := rfl

theorem chunkLens_cons (p : List Nat) (rest : List (List Nat)) :
    chunkLens (p :: rest) = (p.length : Int) + chunkLens rest := by
  simp [chunkLens]

theorem chunkLens_nonneg (chunks : List (List Nat)) : 0 ≤ chunkLens chunks := by
  induction chunks with
  | nil => simp [chunkLens]
  | cons p rest ih =>
    rw [chunkLens_cons]
    positivity

theorem copyChunks_ok (chunks : List (List Nat)) :
    ∀ (c : List Nat) (t w : Int), t + w + chunkLens chunks ≤ MaxTotalSize →
    copyChunks chunks c t w = .ok (c ++ chunks.flatten, w + chunkLens chunks) := by
  induction chunks with
  | nil =>
    intro c t w _
    simp [copyChunks, chunkLens]
  | cons p rest ih =>
    intro c t w h
    rw [chunkLens_cons] at h
    have hnn : 0 ≤ chunkLens rest := chunkLens_nonneg rest
    have hchk : ¬ (t + w + (p.length : Int) > MaxTotalSize) := by omega
    rw [copyChunks]
    rw [show validateTotalSize (t + w) ((p.length : Int)) = .ok () from
      by simp [validateTotalSize]; omega]
    rw [ih (c ++ p) t (w + (p.length : Int)) (by omega)]
    simp [chunkLens_cons]
    omega

theorem copyChunks_total_bound (chunks : List (List Nat)) :
    ∀ (c : List Nat) (t w : Int) (content : List Nat) (w2 : Int),
    copyChunks chunks c t w = .ok (content, w2) → chunks ≠ [] →
    t + w2 ≤ MaxTotalSize := by
  induction chunks with
  | nil =>
    intro c t w content w2 _ hne
    exact absurd rfl hne
  | cons p rest ih =>
    intro c t w content w2 h _
    rw [copyChunks] at h
    by_cases hc : t + w + ((p.length : Int)) > MaxTotalSize
    · rw [show validateTotalSize (t + w) ((p.length : Int)) = .error .totalSizeLimit from
        by simp [validateTotalSize]; omega] at h
      cases h
    · rw [show validateTotalSize (t + w) ((p.length : Int)) = .ok () from
        by simp [validateTotalSize]; omega] at h
      cases rest with
      | nil =>
        rw [copyChunks] at h
        cases h
        omega
      | cons q rest2 =>
        exact ih _ _ _ _ _ h (by simp)

/-! ## Lemmas about path strings -/

theorem pathStr_fold_keeps (l : List String) :
    ∀ acc : String,
      acc.data <+: ((l.foldl (fun acc seg => acc ++ "/" ++ seg) acc).data) := by
  induction l with
  | nil => intro acc; exact List.prefix_rfl
  | cons b l ih =>
    intro acc
    have h1 : acc.data <+: (acc ++ "/" ++ b).data := by
      rw [String.data_append, String.data_append, List.append_assoc]
      exact List.prefix_append _ _
    exact h1.trans (ih (acc ++ "/" ++ b))

theorem pathStr_cons_data (s : String) (rest : List String) :
    ('/' :: s.data) <+: (pathStr (s :: rest)).data := by
  have h := pathStr_fold_keeps rest ("/" ++ s)
  rwa [String.data_append] at h

theorem pathStr_eq_root (p : List String) (hwf : ∀ s ∈ p, s ≠ "")
    (h : pathStr p = "/") : p = [] := by
  cases p with
  | nil => rfl
  | cons s rest =>
    exfalso
    have h1 := pathStr_cons_data s rest
    rw [h] at h1
    have h2 := h1.length_le
    simp at h2
    have hd : s.data = [] := List.length_eq_zero.mp h2
    exact hwf s (by simp) (String.ext (by rw [hd]))

theorem safe_nil_root (absDst : List String) (hwf : ∀ s ∈ absDst, s ≠ "")
    (h : isPathSafe [] absDst = true) : absDst = [] := by
  rw [isPathSafe, Bool.or_eq_true] at h
  rcases h with h | h
  · rw [hasPrefixStr] at h
    have h1 : (pathStr absDst ++ "/").data <+: (pathStr []).data :=
      List.isPrefixOf_iff_prefix.mp h
    cases habs : absDst with
    | nil => rfl
    | cons s rest =>
      exfalso
      subst habs
      have hroot : (pathStr ([] : List String)).data = ['/'] := rfl
      rw [String.data_append, hroot] at h1
      have h2 := h1.length_le
      have h3 := (pathStr_cons_data s rest).length_le
      simp only [List.length_append, List.length_cons, List.length_nil] at h2 h3
      omega
  · have h1 : pathStr [] = pathStr absDst := eq_of_beq h
    exact pathStr_eq_root absDst hwf h1.symm

theorem copyChunks_cross (pre : List (List Nat)) :
    ∀ (c : List Nat) (t w : Int) (p : List Nat) (rest : List (List Nat)),
    t + w + chunkLens pre ≤ MaxTotalSize →
    t + w + chunkLens pre + p.length > MaxTotalSize →
    copyChunks (pre ++ p :: rest) c t w = .error .totalSizeLimit := by
  induction pre with
  | nil =>
    intro c t w p rest _ hcross
    rw [chunkLens_nil] at hcross
    rw [List.nil_append, copyChunks]
    rw [show validateTotalSize (t + w) ((p.length : Int)) = .error .totalSizeLimit from
      by simp [validateTotalSize]; omega]
  | cons q pre ih =>
    intro c t w p rest hok hcross
    rw [chunkLens_cons] at hok hcross
    have hnn : 0 ≤ chunkLens pre := chunkLens_nonneg pre
    rw [List.cons_append, copyChunks]
    rw [show validateTotalSize (t + w) ((q.length : Int)) = .ok () from
      by simp [validateTotalSize]; omega]
    exact ih (c ++ q) t (w + (q.length : Int)) p rest (by omega) (by omega)

/-! ## Step lemmas for the extraction loop -/

theorem extractArchive_nil (fs : FS) (absDst : List String) (tw : Int) :
    extractArchive fs absDst tw [] = .ok fs := rfl

theorem extractArchive_cons_safe (fs : FS) (absDst : List String) (tw : Int)
    (e : Entry) (rest : List Entry)
    (hsize : ¬ e.header.size > MaxFileSize)
    (hsafe : isPathSafe (goJoin absDst e.header.name) absDst = true) :
    extractArchive fs absDst tw (e :: rest)
      = match processEntry fs e.header (goJoin absDst e.header.name) e.chunks tw with
        | .error ef => .error ef
        | .ok (tw2, fs2) => extractArchive fs2 absDst tw2 rest := by
  rw [extractArchive, if_neg hsize]
  dsimp only
  rw [if_pos hsafe]

theorem processEntry_reg (fs : FS) (hdr : Header) (target : List String)
    (chunks : List (List Nat)) (tw : Int) (h : hdr.typeflag = .reg) :
    processEntry fs hdr target chunks tw
      = match handleRegularFile fs target hdr chunks tw with
        | .error ef => .error (.fileEntryFailed hdr.name ef.1, ef.2)
        | .ok (written, fs2) => .ok (tw + written, fs2) := by
  rw [processEntry, h]

theorem processEntry_dir (fs : FS) (hdr : Header) (target : List String)
    (chunks : List (List Nat)) (tw : Int) (h : hdr.typeflag = .dir) :
    processEntry fs hdr target chunks tw
      = match handleDirectory fs target hdr with
        | .error e => .error (.dirEntryFailed hdr.name e, fs)
        | .ok fs2 => .ok (tw, fs2) := by
  rw [processEntry, h]

theorem handleRegularFile_ok (fs fs1 fs2 : FS) (target : List String)
    (hdr : Header) (chunks : List (List Nat)) (t : Int) (m : Nat)
    (content : List Nat) (written : Int)
    (hmk : mkdirAll fs target.dropLast 0o755 = .ok fs1)
    (hop : openFileCreateTrunc fs1 target (fileMode hdr.mode) = .ok (fs2, m))
    (hcopy : copyChunks chunks [] t 0 = .ok (content, written))
    (hanom : ¬ written > hdr.size * 2) :
    handleRegularFile fs target hdr chunks t
      = .ok (written, fsSet fs2 target (.file content m)) := by
  rw [handleRegularFile, hmk]
  dsimp only
  rw [hop]
  dsimp only
  rw [hcopy]
  dsimp only
  rw [if_neg hanom]

theorem handleRegularFile_copyfail (fs fs1 fs2 : FS) (target : List String)
    (hdr : Header) (chunks : List (List Nat)) (t : Int) (m : Nat) (e : ExtractErr)
    (hmk : mkdirAll fs target.dropLast 0o755 = .ok fs1)
    (hop : openFileCreateTrunc fs1 target (fileMode hdr.mode) = .ok (fs2, m))
    (hcopy : copyChunks chunks [] t 0 = .error e) :
    handleRegularFile fs target hdr chunks t = .error (e, fsRemove fs2 target) := by
  rw [handleRegularFile, hmk]
  dsimp only
  rw [hop]
  dsimp only
  rw [hcopy]

theorem handleRegularFile_anomfail (fs fs1 fs2 : FS) (target : List String)
    (hdr : Header) (chunks : List (List Nat)) (t : Int) (m : Nat)
    (content : List Nat) (written : Int)
    (hmk : mkdirAll fs target.dropLast 0o755 = .ok fs1)
    (hop : openFileCreateTrunc fs1 target (fileMode hdr.mode) = .ok (fs2, m))
    (hcopy : copyChunks chunks [] t 0 = .ok (content, written))
    (hanom : written > hdr.size * 2) :
    handleRegularFile fs target hdr chunks t
      = .error (.sizeAnomaly hdr.name, fsRemove fs2 target) := by
  rw [handleRegularFile, hmk]
  dsimp only
  rw [hop]
  dsimp only
  rw [hcopy]
  dsimp only
  rw [if_pos hanom]

theorem openFileCreateTrunc_preserves (fs fs2 : FS) (p : List String) (mode m : Nat)
    (h : openFileCreateTrunc fs p mode = .ok (fs2, m)) :
    ∀ q, q ≠ p → fsGet fs2 q = fsGet fs q := by
  intro q hq
  rw [openFileCreateTrunc] at h
  cases hget : fsGet fs p with
  | none =>
    rw [hget] at h
    cases h
    rw [fsGet_fsSet, if_neg hq]
  | some o =>
    cases o with
    | dir m2 => rw [hget] at h; cases h
    | file c m2 =>
      rw [hget] at h
      cases h
      rw [fsGet_fsSet, if_neg hq]

theorem mkdirAll_target_dir (fs fs2 : FS) (p : List String) (mode : Nat)
    (h : mkdirAll fs p mode = .ok fs2) (hp : p ≠ []) :
    ∃ m2, fsGet fs2 p = some (.dir m2) := by
  rw [mkdirAll_eq fs p mode hp] at h
  cases hget : fsGet fs p with
  | some o =>
    cases o with
    | dir m2 =>
      rw [hget] at h
      cases h
      exact ⟨m2, hget⟩
    | file c m2 => rw [hget] at h; cases h
  | none =>
    rw [hget] at h
    cases hrec : mkdirAll fs p.dropLast mode with
    | error e => rw [hrec] at h; cases h
    | ok fs1 =>
      rw [hrec] at h
      cases h
      exact ⟨mode, by rw [fsGet_fsSet, if_pos rfl]⟩

/-- Extraction of a single regular-file entry named `big` with declared
size exactly `MaxFileSize` and one chunk of `n` actual bytes, into an
empty root: as long as `n` fits under the 8 GiB total limit and under
twice the declared size, the whole extraction succeeds — nothing bounds
the per-file bytes actually written by `MaxFileSize`. -/
theorem untarSingleBigFile (n : Nat)
    (hn : (0 : Int) + 0 + (n : Int) ≤ MaxTotalSize)
    (hanom : ¬ ((n : Int) > MaxFileSize * 2)) :
    UntarGz [] ["r"]
      [⟨⟨"big", .reg, MaxFileSize, 0o644⟩, [List.replicate n 0]⟩]
      = .ok [(["r", "big"], .file (List.replicate n 0) 0o644),
              (["r"], .dir 0o755)] := by
  have hcl : chunkLens [List.replicate n 0] = (n : Int) := by
    simp [chunkLens]
  have hcopy : copyChunks [List.replicate n 0] [] 0 0
      = .ok (List.replicate n 0, (n : Int)) := by
    have h := copyChunks_ok [List.replicate n 0] [] 0 0 (by rw [hcl]; exact hn)
    rw [hcl] at h
    simpa using h
  rw [UntarGz, extractArchive_cons_safe _ _ _ _ _
    (by show ¬ (MaxFileSize : Int) > MaxFileSize; exact lt_irrefl _)
    (by show isPathSafe (goJoin ["r"] "big") ["r"] = true; decide)]
  rw [processEntry_reg _ _ _ _ _ rfl]
  rw [handleRegularFile_ok [] [(["r"], FsObj.dir 0o755)]
    [(["r", "big"], FsObj.file [] 0o644), (["r"], FsObj.dir 0o755)]
    (goJoin ["r"] "big") _ _ _ 0o644 _ _
    (by show mkdirAll [] (goJoin ["r"] "big").dropLast 0o755
          = .ok [(["r"], FsObj.dir 0o755)]; decide)
    (by show openFileCreateTrunc [(["r"], FsObj.dir 0o755)] (goJoin ["r"] "big")
          (fileMode 0o644)
          = .ok ([(["r", "big"], FsObj.file [] 0o644), (["r"], FsObj.dir 0o755)], 0o644);
        decide)
    hcopy hanom]
  dsimp only
  rw [extractArchive_nil]
  rfl

/-! ## Claim theorems -/

/-- Claim C1, counterexample to the original statement: the entry
`../x` with declared size `MaxFileSize + 1000` resolves outside the root
`/d`, yet extraction fails with the size-limit error of the declared-size
pre-check (which runs first), not with the unsafe-path error. -/
theorem C1_counterexample :
    isPathSafe (goJoin ["d"] "../x") ["d"] = false
    ∧ extractArchive [] ["d"] 0
        [⟨⟨"../x", .reg, MaxFileSize + 1000, 0⟩, []⟩]
        = .error (.sizeLimit "../x", [])
    ∧ ExtractErr.sizeLimit "../x" ≠ ExtractErr.unsafePath "../x" :=
  ⟨by decide, by decide, by decide⟩

/-- Claim C1 (amended): for every destination root and archive entry
whose name, joined with the root and resolved, is neither the root nor
strictly under it, and whose declared size is within the per-file limit
(otherwise the size pre-check fires first), extraction fails with the
unsafe-path error and performs no filesystem mutation at all — the
returned state equals the input state, so no entry is materialized
without first passing the path-safety check on the resolved path. -/
theorem C1_unsafe_path_rejected (fs : FS) (absDst : List String) (tw : Int)
    (e : Entry) (rest : List Entry)
    (hsize : e.header.size ≤ MaxFileSize)
    (hbadpath : isPathSafe (goJoin absDst e.header.name) absDst = false) :
    extractArchive fs absDst tw (e :: rest)
      = .error (.unsafePath e.header.name, fs) := by
  rw [extractArchive, if_neg (by omega)]
  simp only [hbadpath]
  rfl

theorem C1_unsafe_path_rejected_witness :
    ((0 : Int) ≤ MaxFileSize)
    ∧ isPathSafe (goJoin ["d"] "../x") ["d"] = false
    ∧ extractArchive [] ["d"] 0 [⟨⟨"../x", .reg, 0, 0⟩, []⟩]
        = .error (.unsafePath "../x", []) :=
  ⟨by decide, by decide,
    C1_unsafe_path_rejected [] ["d"] 0 ⟨⟨"../x", .reg, 0, 0⟩, []⟩ []
      (by decide) (by decide)⟩

/-- Claim C2: a symlink or hardlink entry that is reached (its declared
size passes the pre-check and its path is safe) fails the whole
extraction with the link-entry error, and the filesystem is returned
unchanged — no object is created for the link entry. -/
theorem C2_link_rejected (fs : FS) (absDst : List String) (tw : Int)
    (e : Entry) (rest : List Entry)
    (hflag : e.header.typeflag = .symlink ∨ e.header.typeflag = .link)
    (hsize : e.header.size ≤ MaxFileSize)
    (hsafe : isPathSafe (goJoin absDst e.header.name) absDst = true) :
    extractArchive fs absDst tw (e :: rest)
      = .error (.linkEntry e.header.name, fs) := by
  rw [extractArchive, if_neg (by omega)]
  simp only [hsafe, if_true]
  rcases hflag with h | h <;> simp [processEntry, h]

theorem C2_link_rejected_witness :
    extractArchive [(["r"], FsObj.dir 0o755)] ["r"] 0
        [⟨⟨"evil", .symlink, 0, 0⟩, []⟩]
      = .error (.linkEntry "evil", [(["r"], FsObj.dir 0o755)])
    ∧ fsGet [(["r"], FsObj.dir 0o755)] ["r", "evil"] = none :=
  ⟨C2_link_rejected [(["r"], FsObj.dir 0o755)] ["r"] 0
      ⟨⟨"evil", .symlink, 0, 0⟩, []⟩ [] (by decide) (by decide) (by decide),
    by decide⟩

/-- Claim C4: a regular-file entry whose declared header size exceeds
the 2 GiB per-file limit fails immediately at the pre-check with the
size-limit error; the filesystem is returned unchanged, so no content
byte of the entry reaches the disk. -/
theorem C4_size_precheck (fs : FS) (absDst : List String) (tw : Int)
    (e : Entry) (rest : List Entry)
    (hreg : e.header.typeflag = .reg)
    (hsize : e.header.size > MaxFileSize) :
    extractArchive fs absDst tw (e :: rest)
      = .error (.sizeLimit e.header.name, fs) := by
  rw [extractArchive, if_pos hsize]

theorem C4_size_precheck_witness :
    extractArchive [] ["r"] 0 [⟨⟨"huge", .reg, MaxFileSize + 1000, 0o644⟩, []⟩]
      = .error (.sizeLimit "huge", []) :=
  C4_size_precheck [] ["r"] 0 ⟨⟨"huge", .reg, MaxFileSize + 1000, 0o644⟩, []⟩ []
    (by decide) (by decide)

/-- Claim C10: the declared-size pre-check runs before the entry type is
dispatched, so an entry of any type flag whose declared size exceeds the
per-file limit aborts the whole extraction with the size-limit error —
an oversized symlink gives a size error rather than a link error, and an
oversized unknown-type entry is not skipped. -/
theorem C10_size_precheck_any_type (fs : FS) (absDst : List String) (tw : Int)
    (e : Entry) (rest : List Entry)
    (hsize : e.header.size > MaxFileSize) :
    extractArchive fs absDst tw (e :: rest)
      = .error (.sizeLimit e.header.name, fs) := by
  rw [extractArchive, if_pos hsize]

theorem C10_size_precheck_any_type_witness :
    extractArchive [] ["r"] 0 [⟨⟨"s", .symlink, MaxFileSize + 1, 0⟩, []⟩]
      = .error (.sizeLimit "s", [])
    ∧ extractArchive [] ["r"] 0 [⟨⟨"u", .other 70, MaxFileSize + 5, 0⟩, []⟩]
      = .error (.sizeLimit "u", []) :=
  ⟨C10_size_precheck_any_type [] ["r"] 0 ⟨⟨"s", .symlink, MaxFileSize + 1, 0⟩, []⟩ []
      (by decide),
    C10_size_precheck_any_type [] ["r"] 0 ⟨⟨"u", .other 70, MaxFileSize + 5, 0⟩, []⟩ []
      (by decide)⟩

/-- Claim C9: when a regular-file entry completes its content copy with
more than twice its declared header size actually written, the entry
fails with the size-anomaly error and the target file has been removed
from the returned filesystem state. -/
theorem C9_post_check_removes (fs fs1 fs2 : FS) (target : List String)
    (hdr : Header) (chunks : List (List Nat)) (t : Int) (m : Nat)
    (content : List Nat) (written : Int)
    (hmk : mkdirAll fs target.dropLast 0o755 = .ok fs1)
    (hopen : openFileCreateTrunc fs1 target (fileMode hdr.mode) = .ok (fs2, m))
    (hcopy : copyChunks chunks [] t 0 = .ok (content, written))
    (hanom : written > hdr.size * 2) :
    handleRegularFile fs target hdr chunks t
      = .error (.sizeAnomaly hdr.name, fsRemove fs2 target)
    ∧ fsGet (fsRemove fs2 target) target = none := by
  constructor
  · simp only [handleRegularFile, hmk, hopen, hcopy]
    rw [if_pos hanom]
  · rw [fsGet_fsRemove, if_pos rfl]

theorem C9_post_check_removes_witness :
    handleRegularFile [] ["r", "a"] ⟨"a", .reg, 1, 0o644⟩ [[9, 9, 9]] 0
      = .error (.sizeAnomaly "a",
          fsRemove [(["r", "a"], FsObj.file [] 0o644), (["r"], FsObj.dir 0o755)] ["r", "a"])
    ∧ fsGet (fsRemove [(["r", "a"], FsObj.file [] 0o644), (["r"], FsObj.dir 0o755)] ["r", "a"])
        ["r", "a"] = none :=
  C9_post_check_removes [] [(["r"], FsObj.dir 0o755)]
    [(["r", "a"], FsObj.file [] 0o644), (["r"], FsObj.dir 0o755)]
    ["r", "a"] ⟨"a", .reg, 1, 0o644⟩ [[9, 9, 9]] 0 0o644 [9, 9, 9] 3
    (by decide) (by decide) (by decide) (by decide)

/-- Claim C3: with the accountant in state `t` (running total) and `w`
(per-file counter), if the chunks of `pre` fit under the 8 GiB total
limit but the next chunk `p` would cross it, then copying `pre` alone
succeeds writing every byte, copying `pre ++ p :: rest` fails with the
total-size error exactly at `p` (whatever follows is never consumed),
and any successful copy run ends with running total plus per-file
counter within the limit. -/
theorem C3_total_limit_exact (t w : Int) (c : List Nat)
    (pre : List (List Nat)) (p : List Nat) (rest : List (List Nat))
    (hok : t + w + chunkLens pre ≤ MaxTotalSize)
    (hcross : t + w + chunkLens pre + p.length > MaxTotalSize) :
    copyChunks pre c t w = .ok (c ++ pre.flatten, w + chunkLens pre)
    ∧ copyChunks (pre ++ p :: rest) c t w = .error .totalSizeLimit
    ∧ (∀ chunks c2 t2 w2 content w3,
        copyChunks chunks c2 t2 w2 = .ok (content, w3) → chunks ≠ [] →
        t2 + w3 ≤ MaxTotalSize) :=
  ⟨copyChunks_ok pre c t w hok,
    copyChunks_cross pre c t w p rest hok hcross,
    fun chunks c2 t2 w2 content w3 h hne =>
      copyChunks_total_bound chunks c2 t2 w2 content w3 h hne⟩

theorem C3_total_limit_exact_witness :
    ((MaxTotalSize - 1) + 0 + chunkLens [[7]] ≤ MaxTotalSize)
    ∧ ((MaxTotalSize - 1) + 0 + chunkLens [[7]] + ([5, 5] : List Nat).length > MaxTotalSize)
    ∧ copyChunks [[7]] [] (MaxTotalSize - 1) 0 = .ok ([7], 0 + chunkLens [[7]])
    ∧ copyChunks [[7], [5, 5], [1]] [] (MaxTotalSize - 1) 0 = .error .totalSizeLimit :=
  ⟨by decide, by decide,
    (C3_total_limit_exact (MaxTotalSize - 1) 0 [] [[7]] [5, 5] [[1]]
      (by decide) (by decide)).1,
    (C3_total_limit_exact (MaxTotalSize - 1) 0 [] [[7]] [5, 5] [[1]]
      (by decide) (by decide)).2.1⟩

/-- Claim C5, counterexample to the original statement: a regular-file
entry with declared size 2 GiB and a single chunk of 2 GiB + 1 bytes is
accepted by the tracking writer (which checks only the 8 GiB total), the
chunk write completes with the per-file counter at 2 GiB + 1 >
`MaxFileSize`, and the whole extraction succeeds — the per-file bound is
never enforced against actually-written bytes. -/
theorem C5_counterexample :
    UntarGz [] ["r"]
      [⟨⟨"big", .reg, MaxFileSize, 0o644⟩, [List.replicate (2 ^ 31 + 1) 0]⟩]
      = .ok [(["r", "big"], .file (List.replicate (2 ^ 31 + 1) 0) 0o644),
              (["r"], .dir 0o755)]
    ∧ ((2 ^ 31 + 1 : Int) > MaxFileSize) :=
  ⟨untarSingleBigFile (2 ^ 31 + 1) (by decide) (by decide), by decide⟩

/-- Claim C5 (amended): the streaming writer bounds only the cumulative
total, so the per-file counter is not kept within the 2 GiB per-file
limit mid-stream.  What does hold when a regular-file entry succeeds:
the bytes actually written are at most twice the declared header size
(the post-check), and — when at least one chunk was written — the prior
running total plus the per-file counter stays within the 8 GiB total
limit. -/
theorem C5_perfile_bounds (fs fs2 : FS) (target : List String) (hdr : Header)
    (chunks : List (List Nat)) (t written : Int)
    (h : handleRegularFile fs target hdr chunks t = .ok (written, fs2)) :
    written ≤ 2 * hdr.size ∧ (chunks ≠ [] → t + written ≤ MaxTotalSize) := by
  cases hmk : mkdirAll fs target.dropLast 0o755 with
  | error e =>
    simp only [handleRegularFile, hmk] at h
    exact Except.noConfusion h
  | ok fs1 =>
    cases hop : openFileCreateTrunc fs1 target (fileMode hdr.mode) with
    | error e =>
      simp only [handleRegularFile, hmk, hop] at h
      exact Except.noConfusion h
    | ok pr =>
      obtain ⟨fs3, m⟩ := pr
      cases hcopy : copyChunks chunks [] t 0 with
      | error e =>
        simp only [handleRegularFile, hmk, hop, hcopy] at h
        exact Except.noConfusion h
      | ok pr2 =>
        obtain ⟨content, w2⟩ := pr2
        simp only [handleRegularFile, hmk, hop, hcopy] at h
        by_cases hif : w2 > hdr.size * 2
        · rw [if_pos hif] at h
          exact Except.noConfusion h
        · rw [if_neg hif] at h
          have hw : w2 = written := congrArg Prod.fst (Except.ok.inj h)
          subst hw
          constructor
          · omega
          · intro hne
            have hb := copyChunks_total_bound chunks [] t 0 content w2 hcopy hne
            omega

theorem C5_perfile_bounds_witness :
    handleRegularFile [] ["r", "a"] ⟨"a", .reg, 2, 0o644⟩ [[1, 2]] 0
      = .ok (2, [(["r", "a"], FsObj.file [1, 2] 0o644), (["r"], FsObj.dir 0o755)])
    ∧ (2 : Int) ≤ 2 * (⟨"a", TypeFlag.reg, 2, 0o644⟩ : Header).size
    ∧ (([[1, 2]] : List (List Nat)) ≠ [] → (0 : Int) + 2 ≤ MaxTotalSize) :=
  ⟨by decide,
    (C5_perfile_bounds [] [(["r", "a"], FsObj.file [1, 2] 0o644), (["r"], FsObj.dir 0o755)]
      ["r", "a"] ⟨"a", .reg, 2, 0o644⟩ [[1, 2]] 0 2 (by decide)).1,
    (C5_perfile_bounds [] [(["r", "a"], FsObj.file [1, 2] 0o644), (["r"], FsObj.dir 0o755)]
      ["r", "a"] ⟨"a", .reg, 2, 0o644⟩ [[1, 2]] 0 2 (by decide)).2⟩

/-- Claim C6, counterexample to the original statement: two entries
share the target path `a`; the first fully materializes the file `a`,
the second fails its post-check and removes `a` — so an entry already
fully materialized before the failure is not left unchanged on disk. -/
theorem C6_counterexample :
    extractArchive [] ["r"] 0
      [⟨⟨"a", .reg, 2, 0o644⟩, [[104, 105]]⟩, ⟨⟨"a", .reg, 1, 0o644⟩, [[97, 98, 99]]⟩]
      = .error (.fileEntryFailed "a" (.sizeAnomaly "a"), [(["r"], FsObj.dir 0o755)])
    ∧ extractArchive [] ["r"] 0 [⟨⟨"a", .reg, 2, 0o644⟩, [[104, 105]]⟩]
      = .ok [(["r", "a"], FsObj.file [104, 105] 0o644), (["r"], FsObj.dir 0o755)]
    ∧ fsGet [(["r"], FsObj.dir 0o755)] (goJoin ["r"] "a") = none :=
  ⟨by decide, by decide, by decide⟩

/-- Claim C6 (amended): when a regular-file entry fails mid-write in the
size accounting, the whole extraction aborts with that entry's wrapped
error (whatever entries follow are never reached — the result does not
depend on them), the failing entry's partially written file is removed
from the returned state, and every object that existed before the
failing entry at a path other than the failing entry's target is still
present unchanged; an already-materialized entry sharing the failing
entry's target path is destroyed by the truncate-and-remove (and there
is no whole-archive rollback). -/
theorem C6_abort_cleanup_frame (fs fs1 fs2 : FS) (absDst : List String) (tw : Int)
    (e : Entry) (rest : List Entry) (m : Nat) (cerr : ExtractErr)
    (hsize : ¬ e.header.size > MaxFileSize)
    (hsafe : isPathSafe (goJoin absDst e.header.name) absDst = true)
    (hreg : e.header.typeflag = .reg)
    (hmk : mkdirAll fs (goJoin absDst e.header.name).dropLast 0o755 = .ok fs1)
    (hop : openFileCreateTrunc fs1 (goJoin absDst e.header.name)
      (fileMode e.header.mode) = .ok (fs2, m))
    (hcopy : copyChunks e.chunks [] tw 0 = .error cerr) :
    extractArchive fs absDst tw (e :: rest)
      = .error (.fileEntryFailed e.header.name cerr,
          fsRemove fs2 (goJoin absDst e.header.name))
    ∧ fsGet (fsRemove fs2 (goJoin absDst e.header.name))
        (goJoin absDst e.header.name) = none
    ∧ (∀ q o, q ≠ goJoin absDst e.header.name → fsGet fs q = some o →
        fsGet (fsRemove fs2 (goJoin absDst e.header.name)) q = some o) := by
  refine ⟨?_, ?_, ?_⟩
  · rw [extractArchive_cons_safe fs absDst tw e rest hsize hsafe]
    rw [processEntry_reg fs e.header _ e.chunks tw hreg]
    rw [handleRegularFile_copyfail fs fs1 fs2 _ e.header e.chunks tw m cerr hmk hop hcopy]
  · rw [fsGet_fsRemove, if_pos rfl]
  · intro q o hq hgq
    rw [fsGet_fsRemove, if_neg hq]
    have h1 := mkdirAll_preserves fs fs1 _ 0o755 hmk q o hgq
    have h2 := openFileCreateTrunc_preserves fs1 fs2 _ (fileMode e.header.mode) m hop q hq
    rw [h2, h1]

theorem C6_abort_cleanup_frame_witness :
    extractArchive [(["r", "old"], FsObj.file [1] 0o644), (["r"], FsObj.dir 0o755)]
        ["r"] MaxTotalSize
        [⟨⟨"a", .reg, 1, 0o644⟩, [[9]]⟩, ⟨⟨"z", .reg, 0, 0⟩, []⟩]
      = .error (.fileEntryFailed "a" .totalSizeLimit,
          fsRemove [(["r", "a"], FsObj.file [] 0o644),
                    (["r", "old"], FsObj.file [1] 0o644),
                    (["r"], FsObj.dir 0o755)] (goJoin ["r"] "a"))
    ∧ fsGet (fsRemove [(["r", "a"], FsObj.file [] 0o644),
                       (["r", "old"], FsObj.file [1] 0o644),
                       (["r"], FsObj.dir 0o755)] (goJoin ["r"] "a"))
        (goJoin ["r"] "a") = none
    ∧ fsGet (fsRemove [(["r", "a"], FsObj.file [] 0o644),
                       (["r", "old"], FsObj.file [1] 0o644),
                       (["r"], FsObj.dir 0o755)] (goJoin ["r"] "a"))
        ["r", "old"] = some (FsObj.file [1] 0o644) := by
  obtain ⟨h1, h2, h3⟩ := C6_abort_cleanup_frame
    [(["r", "old"], FsObj.file [1] 0o644), (["r"], FsObj.dir 0o755)]
    [(["r", "old"], FsObj.file [1] 0o644), (["r"], FsObj.dir 0o755)]
    [(["r", "a"], FsObj.file [] 0o644),
      (["r", "old"], FsObj.file [1] 0o644), (["r"], FsObj.dir 0o755)]
    ["r"] MaxTotalSize ⟨⟨"a", .reg, 1, 0o644⟩, [[9]]⟩ [⟨⟨"z", .reg, 0, 0⟩, []⟩]
    0o644 .totalSizeLimit
    (by decide) (by decide) (by decide) (by decide) (by decide) (by decide)
  exact ⟨h1, h2, h3 ["r", "old"] (FsObj.file [1] 0o644) (by decide) (by decide)⟩

/-- Claim C7: a directory entry is a no-op when a directory already
exists at the target (so the same entry can be extracted twice), fails
when a non-directory exists there, and otherwise creates the directory
(with any missing ancestors creatable) carrying the header's permission
bits masked to the permission-only bits, with `0755` substituted when
the masked bits are zero; a successful directory entry is idempotent. -/
theorem C7_directory_semantics (fs : FS) (target : List String) (hdr : Header) :
    (∀ m, fsGet fs target = some (.dir m) → handleDirectory fs target hdr = .ok fs)
    ∧ (∀ c m, fsGet fs target = some (.file c m) →
        handleDirectory fs target hdr = .error (.notADirectory target))
    ∧ (fsGet fs target = none → target ≠ [] →
        (∀ q, q <+: target → ∀ c m, fsGet fs q ≠ some (.file c m)) →
        ∃ fs2, handleDirectory fs target hdr = .ok fs2
          ∧ fsGet fs2 target
              = some (.dir (if hdr.mode &&& 0o777 = 0 then 0o755 else hdr.mode &&& 0o777)))
    ∧ (∀ fs2, handleDirectory fs target hdr = .ok fs2 →
        handleDirectory fs2 target hdr = .ok fs2) := by
  refine ⟨?_, ?_, ?_, ?_⟩
  · intro m hget
    rw [handleDirectory, hget]
  · intro c m hget
    rw [handleDirectory, hget]
  · intro hget hne hnofile
    obtain ⟨fs2, heq, hdesc, htar⟩ := mkdirAll_ok fs target (dirMode hdr.mode) hnofile
    refine ⟨fs2, by rw [handleDirectory, hget]; exact heq, ?_⟩
    rcases hdesc target with h | ⟨_, _, h⟩
    · obtain ⟨m2, hm2⟩ := htar hne
      rw [h, hget] at hm2
      cases hm2
    · exact h
  · intro fs2 h
    rw [handleDirectory] at h
    cases hget : fsGet fs target with
    | some o =>
      cases o with
      | dir m =>
        rw [hget] at h
        cases h
        rw [handleDirectory, hget]
      | file c m => rw [hget] at h; cases h
    | none =>
      rw [hget] at h
      by_cases htar : target = []
      · subst htar
        rw [mkdirAll_nil] at h
        cases h
        rw [handleDirectory, hget, mkdirAll_nil]
      · obtain ⟨m2, hm2⟩ := mkdirAll_target_dir fs fs2 target (dirMode hdr.mode) h htar
        rw [handleDirectory, hm2]

theorem C7_directory_semantics_witness :
    handleDirectory [(["d"], FsObj.dir 0o700)] ["d"] ⟨"d", .dir, 0, 0o700⟩
      = .ok [(["d"], FsObj.dir 0o700)]
    ∧ handleDirectory [(["f"], FsObj.file [] 0o644)] ["f"] ⟨"f", .dir, 0, 0⟩
      = .error (.notADirectory ["f"])
    ∧ (∃ fs2, handleDirectory [] ["d"] ⟨"d", .dir, 0, 0⟩ = .ok fs2
        ∧ fsGet fs2 ["d"] = some (.dir 0o755))
    ∧ handleDirectory [(["d"], FsObj.dir 0o755)] ["d"] ⟨"d", .dir, 0, 0⟩
      = .ok [(["d"], FsObj.dir 0o755)] := by
  refine ⟨?_, ?_, ?_, ?_⟩
  · exact (C7_directory_semantics [(["d"], FsObj.dir 0o700)] ["d"]
      ⟨"d", .dir, 0, 0o700⟩).1 0o700 (by decide)
  · exact (C7_directory_semantics [(["f"], FsObj.file [] 0o644)] ["f"]
      ⟨"f", .dir, 0, 0⟩).2.1 [] 0o644 (by decide)
  · obtain ⟨fs2, h1, h2⟩ := (C7_directory_semantics [] ["d"] ⟨"d", .dir, 0, 0⟩).2.2.1
      (by decide) (by decide) (fun q _ c m h => Option.noConfusion h)
    exact ⟨fs2, h1, h2⟩
  · exact (C7_directory_semantics [] ["d"] ⟨"d", .dir, 0, 0⟩).2.2.2
      [(["d"], FsObj.dir 0o755)] (by decide)

theorem regTotal_nil : regTotal [] = 0 := rfl

theorem regTotal_cons (e : Entry) (entries : List Entry) :
    regTotal (e :: entries)
      = (if e.header.typeflag = TypeFlag.reg then chunkLens e.chunks else 0)
        + regTotal entries := by
  simp [regTotal]

theorem regTotal_nonneg (entries : List Entry) : 0 ≤ regTotal entries := by
  induction entries with
  | nil => simp [regTotal]
  | cons e entries ih =>
    rw [regTotal_cons]
    have := chunkLens_nonneg e.chunks
    split <;> omega

theorem handleDirectory_ok_spec (fs : FS) (t : List String) (hdr : Header)
    (hnofile : ∀ q, q <+: t → ∀ c m, fsGet fs q ≠ some (.file c m))
    (ht : t ≠ [] ∨ ∃ m2, fsGet fs t = some (.dir m2)) :
    ∃ fs1, handleDirectory fs t hdr = .ok fs1
      ∧ (∀ q, fsGet fs1 q = fsGet fs q
          ∨ (q <+: t ∧ fsGet fs q = none ∧ fsGet fs1 q = some (.dir (dirMode hdr.mode))))
      ∧ (∃ m2, fsGet fs1 t = some (.dir m2)) := by
  cases hget : fsGet fs t with
  | some o =>
    cases o with
    | dir m2 =>
      exact ⟨fs, by rw [handleDirectory, hget], fun q => Or.inl rfl, ⟨m2, hget⟩⟩
    | file c m2 => exact absurd hget (hnofile t List.prefix_rfl c m2)
  | none =>
    rcases ht with htne | ⟨m2, hm2⟩
    · obtain ⟨fs1, heq, hdesc, htar⟩ := mkdirAll_ok fs t (dirMode hdr.mode) hnofile
      exact ⟨fs1, by rw [handleDirectory, hget]; exact heq, hdesc, htar htne⟩
    · rw [hget] at hm2
      cases hm2

theorem extract_roundtrip_aux (absDst : List String) (hwf : ∀ s ∈ absDst, s ≠ "") :
    ∀ (todo : List Entry) (fs : FS) (tw : Int),
    (∀ e ∈ todo, e.header.typeflag = .dir ∨ e.header.typeflag = .reg) →
    (∀ e ∈ todo, isPathSafe (goJoin absDst e.header.name) absDst = true) →
    (∀ e ∈ todo, ¬ e.header.size > MaxFileSize) →
    (∀ e ∈ todo, e.header.typeflag = .reg → chunkLens e.chunks = e.header.size) →
    (∀ e ∈ todo, e.header.typeflag = .reg → goJoin absDst e.header.name ≠ absDst) →
    tw + regTotal todo ≤ MaxTotalSize →
    todo.Pairwise (EntrySep absDst) →
    (∃ mr, fsGet fs absDst = some (.dir mr)) →
    (∀ e ∈ todo, e.header.typeflag = .reg → fsGet fs (goJoin absDst e.header.name) = none) →
    (∀ e ∈ todo, ∀ q, q <+: goJoin absDst e.header.name →
      ∀ c m, fsGet fs q ≠ some (.file c m)) →
    ∃ fsF, extractArchive fs absDst tw todo = .ok fsF
      ∧ (∀ p o, fsGet fs p = some o → fsGet fsF p = some o)
      ∧ (∀ e ∈ todo, e.header.typeflag = .reg →
          fsGet fsF (goJoin absDst e.header.name)
            = some (.file e.chunks.flatten (fileMode e.header.mode)))
      ∧ (∀ e ∈ todo, e.header.typeflag = .dir →
          ∃ m2, fsGet fsF (goJoin absDst e.header.name) = some (.dir m2)) := by
  intro todo
  induction todo with
  | nil =>
    intro fs tw _ _ _ _ _ _ _ _ _ _
    exact ⟨fs, extractArchive_nil fs absDst tw, fun p o h => h, by simp, by simp⟩
  | cons e todo ih =>
    intro fs tw htype hsafe hsize hframe hner htotal hpair hroot hnone hnof
    obtain ⟨hpairhead, hpairtail⟩ := List.pairwise_cons.mp hpair
    have hmem : e ∈ e :: todo := by simp
    have hmemt : ∀ e2 ∈ todo, e2 ∈ e :: todo := fun e2 h2 => by simp [h2]
    rcases htype e hmem with hdirflag | hregflag
    · -- directory entry at the head
      have ht_or : goJoin absDst e.header.name ≠ []
          ∨ ∃ m2, fsGet fs (goJoin absDst e.header.name) = some (.dir m2) := by
        by_cases htnil : goJoin absDst e.header.name = []
        · right
          have habs : absDst = [] := safe_nil_root absDst hwf (htnil ▸ hsafe e hmem)
          obtain ⟨mr, hmr⟩ := hroot
          refine ⟨mr, ?_⟩
          rw [htnil, ← habs]
          exact hmr
        · exact Or.inl htnil
      obtain ⟨fs1, hD, hdesc1, htar1⟩ :=
        handleDirectory_ok_spec fs (goJoin absDst e.header.name) e.header
          (hnof e hmem) ht_or
      have hpres1 : ∀ p o, fsGet fs p = some o → fsGet fs1 p = some o := by
        intro p o hp
        rcases hdesc1 p with h | ⟨_, hno, _⟩
        · rw [h]; exact hp
        · rw [hno] at hp; cases hp
      have htot2 : tw + regTotal todo ≤ MaxTotalSize := by
        rw [regTotal_cons, if_neg (by rw [hdirflag]; exact fun h => TypeFlag.noConfusion h)]
          at htotal
        omega
      obtain ⟨fsF, hT1, hT2, hT3, hT4⟩ := ih fs1 tw
        (fun e2 h2 => htype e2 (hmemt e2 h2))
        (fun e2 h2 => hsafe e2 (hmemt e2 h2))
        (fun e2 h2 => hsize e2 (hmemt e2 h2))
        (fun e2 h2 => hframe e2 (hmemt e2 h2))
        (fun e2 h2 => hner e2 (hmemt e2 h2))
        htot2 hpairtail
        (by
          obtain ⟨mr, hmr⟩ := hroot
          exact ⟨mr, hpres1 absDst _ hmr⟩)
        (by
          intro e2 h2 hr2
          rcases hdesc1 (goJoin absDst e2.header.name) with h | ⟨hpre, _, _⟩
          · rw [h]; exact hnone e2 (hmemt e2 h2) hr2
          · exact absurd hpre ((hpairhead e2 h2).2 hr2))
        (by
          intro e2 h2 q hq c m
          rcases hdesc1 q with h | ⟨_, _, h⟩
          · rw [h]; exact hnof e2 (hmemt e2 h2) q hq c m
          · rw [h]; exact fun he => by cases he)
      refine ⟨fsF, ?_, fun p o hp => hT2 p o (hpres1 p o hp), ?_, ?_⟩
      · rw [extractArchive_cons_safe fs absDst tw e todo (hsize e hmem) (hsafe e hmem)]
        rw [processEntry_dir fs e.header (goJoin absDst e.header.name) e.chunks tw hdirflag]
        rw [hD]
        exact hT1
      · intro e2 h2 hr2
        rcases List.mem_cons.mp h2 with rfl | h2
        · rw [hdirflag] at hr2; cases hr2
        · exact hT3 e2 h2 hr2
      · intro e2 h2 hd2
        rcases List.mem_cons.mp h2 with rfl | h2
        · obtain ⟨m2, hm2⟩ := htar1
          exact ⟨m2, hT2 _ _ hm2⟩
        · exact hT4 e2 h2 hd2
    · -- regular-file entry at the head
      have tne_root : goJoin absDst e.header.name ≠ absDst := hner e hmem hregflag
      have htnil : goJoin absDst e.header.name ≠ [] := by
        intro h
        apply tne_root
        rw [h]
        exact (safe_nil_root absDst hwf (h ▸ hsafe e hmem)).symm
      have hget_t : fsGet fs (goJoin absDst e.header.name) = none :=
        hnone e hmem hregflag
      have hnof_par : ∀ q, q <+: (goJoin absDst e.header.name).dropLast →
          ∀ c m, fsGet fs q ≠ some (.file c m) :=
        fun q hq =>
          hnof e hmem q (hq.trans (List.dropLast_prefix (goJoin absDst e.header.name)))
      obtain ⟨fs1, hmk, hdesc1, -⟩ :=
        mkdirAll_ok fs (goJoin absDst e.header.name).dropLast 0o755 hnof_par
      have hpres1 : ∀ p o, fsGet fs p = some o → fsGet fs1 p = some o := by
        intro p o hp
        rcases hdesc1 p with h | ⟨_, hno, _⟩
        · rw [h]; exact hp
        · rw [hno] at hp; cases hp
      have hget1_t : fsGet fs1 (goJoin absDst e.header.name) = none := by
        rcases hdesc1 (goJoin absDst e.header.name) with h | ⟨hpre, _, _⟩
        · rw [h]; exact hget_t
        · exact absurd hpre
            (prefix_dropLast_false (goJoin absDst e.header.name) htnil)
      have hop : openFileCreateTrunc fs1 (goJoin absDst e.header.name)
          (fileMode e.header.mode)
          = .ok (fsSet fs1 (goJoin absDst e.header.name)
                  (.file [] (fileMode e.header.mode)), fileMode e.header.mode) := by
        rw [openFileCreateTrunc, hget1_t]
      have hclnn : 0 ≤ chunkLens e.chunks := chunkLens_nonneg e.chunks
      have hrtnn : 0 ≤ regTotal todo := regTotal_nonneg todo
      have htot_cons : regTotal (e :: todo) = chunkLens e.chunks + regTotal todo := by
        rw [regTotal_cons, if_pos hregflag]
      have hbound : tw + 0 + chunkLens e.chunks ≤ MaxTotalSize := by
        rw [htot_cons] at htotal
        omega
      have hcopy := copyChunks_ok e.chunks [] tw 0 hbound
      rw [List.nil_append, zero_add] at hcopy
      have hanom : ¬ chunkLens e.chunks > e.header.size * 2 := by
        have := hframe e hmem hregflag
        omega
      have hfile := handleRegularFile_ok fs fs1
        (fsSet fs1 (goJoin absDst e.header.name) (.file [] (fileMode e.header.mode)))
        (goJoin absDst e.header.name) e.header e.chunks tw (fileMode e.header.mode)
        e.chunks.flatten (chunkLens e.chunks) hmk hop hcopy hanom
      have hget3 : ∀ q, q ≠ goJoin absDst e.header.name →
          fsGet (fsSet
            (fsSet fs1 (goJoin absDst e.header.name) (.file [] (fileMode e.header.mode)))
            (goJoin absDst e.header.name)
            (.file e.chunks.flatten (fileMode e.header.mode))) q = fsGet fs1 q := by
        intro q hq
        rw [fsGet_fsSet, if_neg hq, fsGet_fsSet, if_neg hq]
      have hget3t : fsGet (fsSet
            (fsSet fs1 (goJoin absDst e.header.name) (.file [] (fileMode e.header.mode)))
            (goJoin absDst e.header.name)
            (.file e.chunks.flatten (fileMode e.header.mode)))
          (goJoin absDst e.header.name)
          = some (.file e.chunks.flatten (fileMode e.header.mode)) := by
        rw [fsGet_fsSet, if_pos rfl]
      have htot2 : (tw + chunkLens e.chunks) + regTotal todo ≤ MaxTotalSize := by
        rw [htot_cons] at htotal
        omega
      obtain ⟨fsF, hT1, hT2, hT3, hT4⟩ := ih
        (fsSet
          (fsSet fs1 (goJoin absDst e.header.name) (.file [] (fileMode e.header.mode)))
          (goJoin absDst e.header.name)
          (.file e.chunks.flatten (fileMode e.header.mode)))
        (tw + chunkLens e.chunks)
        (fun e2 h2 => htype e2 (hmemt e2 h2))
        (fun e2 h2 => hsafe e2 (hmemt e2 h2))
        (fun e2 h2 => hsize e2 (hmemt e2 h2))
        (fun e2 h2 => hframe e2 (hmemt e2 h2))
        (fun e2 h2 => hner e2 (hmemt e2 h2))
        htot2 hpairtail
        (by
          obtain ⟨mr, hmr⟩ := hroot
          refine ⟨mr, ?_⟩
          rw [hget3 absDst (Ne.symm tne_root)]
          exact hpres1 absDst _ hmr)
        (by
          intro e2 h2 hr2
          have hsep2 : ¬ (goJoin absDst e2.header.name <+: goJoin absDst e.header.name) :=
            (hpairhead e2 h2).2 hr2
          have hne2 : goJoin absDst e2.header.name ≠ goJoin absDst e.header.name := by
            intro heq
            exact hsep2 (heq ▸ List.prefix_rfl)
          rw [hget3 _ hne2]
          rcases hdesc1 (goJoin absDst e2.header.name) with h | ⟨hpre, _, _⟩
          · rw [h]; exact hnone e2 (hmemt e2 h2) hr2
          · exact absurd
              (hpre.trans (List.dropLast_prefix (goJoin absDst e.header.name)))
              hsep2)
        (by
          intro e2 h2 q hq c m
          have hsep1 : ¬ (goJoin absDst e.header.name <+: goJoin absDst e2.header.name) :=
            (hpairhead e2 h2).1 hregflag
          have hqne : q ≠ goJoin absDst e.header.name := by
            intro heq
            exact hsep1 (heq ▸ hq)
          rw [hget3 q hqne]
          rcases hdesc1 q with h | ⟨_, _, h⟩
          · rw [h]; exact hnof e2 (hmemt e2 h2) q hq c m
          · rw [h]; exact fun he => by cases he)
      refine ⟨fsF, ?_, ?_, ?_, ?_⟩
      · rw [extractArchive_cons_safe fs absDst tw e todo (hsize e hmem) (hsafe e hmem)]
        rw [processEntry_reg fs e.header (goJoin absDst e.header.name) e.chunks tw hregflag]
        rw [hfile]
        exact hT1
      · intro p o hp
        have hpne : p ≠ goJoin absDst e.header.name := by
          intro heq
          rw [heq, hget_t] at hp
          cases hp
        refine hT2 p o ?_
        rw [hget3 p hpne]
        exact hpres1 p o hp
      · intro e2 h2 hr2
        rcases List.mem_cons.mp h2 with rfl | h2
        · exact hT2 _ _ hget3t
        · exact hT3 e2 h2 hr2
      · intro e2 h2 hd2
        rcases List.mem_cons.mp h2 with rfl | h2
        · rw [hregflag] at hd2; cases hd2
        · exact hT4 e2 h2 hd2

/-- Claim C8, counterexample to the original statement: an archive of
two regular-file entries `a` and `a/b`, both with safe paths, declared
sizes matching their content and far under every limit, extracted into
an empty destination root, fails — materializing `a` as a file makes the
parent-directory creation for `a/b` impossible — although the claim
promises success for every such archive. -/
theorem C8_counterexample :
    isPathSafe (goJoin ["r"] "a") ["r"] = true
    ∧ isPathSafe (goJoin ["r"] "a/b") ["r"] = true
    ∧ chunkLens ([] : List (List Nat)) = 0
    ∧ UntarGz [(["r"], FsObj.dir 0o755)] ["r"]
        [⟨⟨"a", .reg, 0, 0o644⟩, []⟩, ⟨⟨"a/b", .reg, 0, 0o644⟩, []⟩]
      = .error (.fileEntryFailed "a/b" (.notADirectory ["r", "a"]),
          [(["r", "a"], FsObj.file [] 0o644), (["r"], FsObj.dir 0o755)]) :=
  ⟨by decide, by decide, by decide, by decide⟩

/-- Claim C8 (amended): for every archive of only directory and
regular-file entries, all with safe paths, declared sizes within the
per-file limit matching the actual content bytes, total content within
the 8 GiB limit, and non-conflicting target paths — no regular-file
target is the destination root, equals another entry's target, or is an
ancestor of another entry's target — extraction into an empty
destination root succeeds, reproduces every regular file byte-identical
at its target path with the header's (masked, defaulted) permission
bits, and produces a directory at every directory entry's target. -/
theorem C8_roundtrip (absDst : List String) (rootMode : Nat) (entries : List Entry)
    (hwf : ∀ s ∈ absDst, s ≠ "")
    (htype : ∀ e ∈ entries, e.header.typeflag = .dir ∨ e.header.typeflag = .reg)
    (hsafe : ∀ e ∈ entries, isPathSafe (entryTarget absDst e) absDst = true)
    (hsize : ∀ e ∈ entries, ¬ e.header.size > MaxFileSize)
    (hframe : ∀ e ∈ entries, e.header.typeflag = .reg →
      chunkLens e.chunks = e.header.size)
    (hner : ∀ e ∈ entries, e.header.typeflag = .reg → entryTarget absDst e ≠ absDst)
    (htotal : regTotal entries ≤ MaxTotalSize)
    (hpair : entries.Pairwise (EntrySep absDst)) :
    ∃ fsF, UntarGz [(absDst, .dir rootMode)] absDst entries = .ok fsF
      ∧ (∀ e ∈ entries, e.header.typeflag = .reg →
          fsGet fsF (entryTarget absDst e)
            = some (.file e.chunks.flatten (fileMode e.header.mode)))
      ∧ (∀ e ∈ entries, e.header.typeflag = .dir →
          ∃ m2, fsGet fsF (entryTarget absDst e) = some (.dir m2)) := by
  obtain ⟨fsF, h1, _, h3, h4⟩ := extract_roundtrip_aux absDst hwf entries
    [(absDst, .dir rootMode)] 0
    htype hsafe hsize hframe hner
    (by omega)
    hpair
    (⟨rootMode, by
      show fsGet (fsSet [] absDst (FsObj.dir rootMode)) absDst = some (FsObj.dir rootMode)
      rw [fsGet_fsSet, if_pos rfl]⟩)
    (by
      intro e he hr
      show fsGet (fsSet [] absDst (FsObj.dir rootMode)) (goJoin absDst e.header.name) = none
      rw [fsGet_fsSet,
        if_neg (show goJoin absDst e.header.name ≠ absDst from hner e he hr)]
      rfl)
    (by
      intro e he q hq c m
      show fsGet (fsSet [] absDst (FsObj.dir rootMode)) q ≠ some (FsObj.file c m)
      rw [fsGet_fsSet]
      by_cases hqa : q = absDst
      · rw [if_pos hqa]
        exact fun h => by cases h
      · rw [if_neg hqa]
        exact fun h => by cases h)
  exact ⟨fsF, h1, h3, h4⟩

theorem C8_roundtrip_witness :
    ∃ fsF, UntarGz [(["r"], FsObj.dir 0o755)] ["r"]
        [⟨⟨"a", .dir, 0, 0o755⟩, []⟩, ⟨⟨"a/b.txt", .reg, 2, 0o644⟩, [[104, 105]]⟩]
      = .ok fsF
      ∧ fsGet fsF ["r", "a", "b.txt"] = some (.file [104, 105] 0o644)
      ∧ (∃ m2, fsGet fsF ["r", "a"] = some (.dir m2)) := by
  obtain ⟨fsF, h1, h2, h3⟩ := C8_roundtrip ["r"] 0o755
    [⟨⟨"a", .dir, 0, 0o755⟩, []⟩, ⟨⟨"a/b.txt", .reg, 2, 0o644⟩, [[104, 105]]⟩]
    (by decide) (by decide) (by decide) (by decide) (by decide) (by decide) (by decide)
    (by decide)
  refine ⟨fsF, h1, ?_, ?_⟩
  · have h := h2 ⟨⟨"a/b.txt", .reg, 2, 0o644⟩, [[104, 105]]⟩ (by decide) rfl
    have he : entryTarget ["r"] (⟨⟨"a/b.txt", .reg, 2, 0o644⟩, [[104, 105]]⟩ : Entry)
        = ["r", "a", "b.txt"] := by decide
    have hc : ([[104, 105]] : List (List Nat)).flatten = [104, 105] := by decide
    have hm : fileMode 0o644 = 0o644 := by decide
    rw [he, hc, hm] at h
    exact h
  · have h := h3 ⟨⟨"a", .dir, 0, 0o755⟩, []⟩ (by decide) rfl
    have he : entryTarget ["r"] (⟨⟨"a", .dir, 0, 0o755⟩, []⟩ : Entry) = ["r", "a"] := by
      decide
    rw [he] at h
    exact h

end KrciCache
